import Mathlib

/-!
Verification development for the demand-modeling engine of the
subwaybuilder-patcher repository
(src/patcher/packages/mapPatcher/download_census_data.js, first document).

The embedding covers the components the checked properties are about:

* BlockIngestor      : getCensusBlocksInBbox block-processing (lines 107-136)
* BlockAggregator    : aggregateBlocks (lines 587-633)
* LowPopulationMerger: adjusted-population merge inside generateCommuteFlows
                       (lines 437-467)
* FlowSynthesizer    : gravity model and flow splitting inside
                       generateCommuteFlows (lines 469-547)

Numbers: populations and job counts are JS numbers holding integers and are
modelled as integers.  Geographic coordinates are parsed floats, modelled as
rationals.  The external turf.distance haversine is not code of this
repository; it is modelled as an abstract distance-function parameter
(rational-valued in the aggregation component, which keeps it executable,
real-valued in the gravity component where it meets transcendental
arithmetic).  Math.pow with fractional exponent and the gravity arithmetic
are modelled over the reals, with Math.round x = floor (x + 1/2) and
Math.ceil as the integer ceiling.
-/

namespace SubwayPatcher

/-- A census block as produced by getCensusBlocksInBbox: the fields of the
record built at lines 119-130 that the demand engine reads afterwards
(geoid, centroid = [lon, lat], population).  The name, areaLand and the
GEOID-substring hierarchy fields are carried along in the source but never
read by the aggregation or flow components, so they are omitted here.
Clusters produced by aggregateBlocks reuse this same record shape. -/
structure Block where
  geoid : String
  centroid : ℚ × ℚ
  population : ℤ
deriving DecidableEq, Repr

/-- The employmentData map, read only through the total pattern
employmentData[g] plus the or-zero default (missing keys read as 0):
modelled as a total function from geoids to job counts. -/
def Emp : Type := String → ℤ

/-- Abstract model of turf.distance in meters for the aggregation component:
any function of the two centroids.  turf returns a nonnegative great-circle
distance; theorems that depend on nonnegativity take it as a hypothesis. -/
def Dist : Type := (ℚ × ℚ) → (ℚ × ℚ) → ℚ

/-! ### BlockIngestor (getCensusBlocksInBbox, lines 107-136) -/

/-- One feature.attributes record of the TIGERweb response, with the fields
getCensusBlocksInBbox reads.  parseFloat of INTPTLAT/INTPTLON yields NaN on
malformed input; a parsed coordinate is modelled as Option (none = NaN), and
POP100 may be absent or falsy (props.POP100 || 0). -/
structure RawFeature where
  GEOID : String
  POP100 : Option ℤ
  INTPTLAT : Option ℚ
  INTPTLON : Option ℚ
deriving DecidableEq, Repr

/-- Lines 108-131: build one block record from a feature, or null when a
coordinate is NaN (isNaN(lat) || isNaN(lon)). -/
def parseBlock (f : RawFeature) : Option Block :=
  match f.INTPTLAT, f.INTPTLON with
  | some lat, some lon => some ⟨f.GEOID, (lon, lat), f.POP100.getD 0⟩
  | _, _ => none

/-- Lines 107-132: data.features.map(...).filter(b => b !== null). -/
def processCensusBlocks (features : List RawFeature) : List Block :=
  features.filterMap parseBlock

/-! ### BlockAggregator (aggregateBlocks, lines 587-633) -/

/-- A cluster as built by aggregateBlocks (lines 620-627): geoid and centroid
inherited from the seed block, running population/jobs sums, member list. -/
structure Cluster where
  geoid : String
  centroid : ℚ × ℚ
  population : ℤ
  jobs : ℤ
  subBlocks : List Block
deriving DecidableEq, Repr

/-- Lines 619-628: the fresh cluster seeded by a block. -/
def newCluster (emp : Emp) (b : Block) : Cluster :=
  ⟨b.geoid, b.centroid, b.population, emp b.geoid, [b]⟩

/-- Lines 604-616: merging a block into an existing cluster adds its
population and jobs and records membership; the centroid stays the seed
centroid. -/
def mergeInto (emp : Emp) (c : Cluster) (b : Block) : Cluster :=
  { c with
    subBlocks := c.subBlocks ++ [b]
    population := c.population + b.population
    jobs := c.jobs + emp b.geoid }

/-- Lines 595-629, one iteration of sortedBlocks.forEach: scan the clusters
in creation order, join the first one whose centroid is strictly within the
threshold of the centroid of the block, otherwise append a new cluster. -/
def insertBlock (dist : Dist) (threshold : ℚ) (emp : Emp) :
    List Cluster → Block → List Cluster
  | [], b => [newCluster emp b]
  | c :: rest, b =>
    if dist b.centroid c.centroid < threshold then
      mergeInto emp c b :: rest
    else
      c :: insertBlock dist threshold emp rest b

/-- Line 591: [...blocks].sort((a, b) => b.population - a.population).
Array.prototype.sort is a stable sort; with this comparator it sorts by
population descending with ties kept in input order, which is exactly
stable insertion by population.  insertByPop places a block before the
first scanned block of smaller-or-equal population. -/
def insertByPop (b : Block) : List Block → List Block
  | [] => [b]
  | c :: rest =>
    if c.population ≤ b.population then b :: c :: rest
    else c :: insertByPop b rest

/-- Line 591: the stable descending-population sort. -/
def sortBlocks : List Block → List Block
  | [] => []
  | b :: rest => insertByPop b (sortBlocks rest)

/-- Lines 587-633: aggregateBlocks(blocks, employmentData, thresholdMeters),
with turf.distance passed as the abstract dist parameter. -/
def aggregateBlocks (dist : Dist) (blocks : List Block) (emp : Emp)
    (threshold : ℚ) : List Cluster :=
  (sortBlocks blocks).foldl (insertBlock dist threshold emp) []

/-! ### FlowSynthesizer: rounding, splitting and emission
(generateCommuteFlows, lines 526-546) -/

/-- JS Math.round over the rationals: round half toward positive infinity,
Math.round x = floor (x + 1/2). -/
def jsRound (q : ℚ) : ℤ := ⌊q + 1 / 2⌋

/-- Line 531: splits = Math.ceil(flowSize / 400). -/
def splitsOf (flowSize : ℤ) : ℤ := ⌈(flowSize : ℚ) / 400⌉

/-- Line 532: sizePerSplit = Math.round(flowSize / splits). -/
def sizePerSplit (flowSize : ℤ) : ℤ :=
  jsRound ((flowSize : ℚ) / ((splitsOf flowSize : ℤ) : ℚ))

/-- One flow record pushed at lines 535-542.  In the source the id field
stores the counter serialized as a string (flowId.toString(), with flowId
incremented once per pushed record); the embedding keeps the counter value
itself, since toString is injective on counters. -/
structure FlowRec where
  id : ℕ
  residenceId : String
  jobId : String
  size : ℤ
  drivingDistance : ℤ
  drivingSeconds : ℤ
deriving DecidableEq, Repr

/-- Lines 529-545: given one allocation flowSize for an origin/destination
pair, the list of records pushed, with sequential ids starting at the
current flowId counter.  drivingDistance and drivingSeconds are the
already-rounded Math.round(flow.distance) and Math.round(distance * 0.12)
values, passed in by the caller. -/
def emitFlow (minFlowSize : ℤ) (flowId : ℕ) (resId jobId : String)
    (dDist dSecs : ℤ) (flowSize : ℤ) : List FlowRec :=
  if minFlowSize ≤ flowSize then
    (List.range (splitsOf flowSize).toNat).map fun i =>
      ⟨flowId + i, resId, jobId, sizePerSplit flowSize, dDist, dSecs⟩
  else []

/-! ### LowPopulationMerger (generateCommuteFlows, lines 437-467) -/

/-- Lines 442-449: adjustedPopulation[block.geoid] = block.population for
each block in order (a JS object write; later writes to the same key win).
Keys never written read as 0. -/
def initAdjusted (blocks : List Block) : String → ℤ :=
  blocks.foldl (fun f b => Function.update f b.geoid b.population) fun _ => 0

/-- Lines 444-445: the low-population blocks,
block.population > 0 && block.population < minPopPerBlock. -/
def lowPopBlocks (minPopPerBlock : ℤ) (blocks : List Block) : List Block :=
  blocks.filter fun b => 0 < b.population ∧ b.population < minPopPerBlock

/-- Lines 446-448: the normal blocks, block.population >= minPopPerBlock. -/
def normalBlocks (minPopPerBlock : ℤ) (blocks : List Block) : List Block :=
  blocks.filter fun b => minPopPerBlock ≤ b.population

/-- Lines 452-467: if any normal blocks exist, fold every low-population
block into its nearest normal block: add its population to the adjusted
population of the nearest normal geoid, then zero its own entry.  The
external turf.nearestPoint scan is the abstract nearest parameter; theorems
that need it take as hypothesis that it picks a normal geoid. -/
def mergeLowPop (minPopPerBlock : ℤ) (nearest : Block → String)
    (blocks : List Block) : String → ℤ :=
  if (normalBlocks minPopPerBlock blocks).length > 0 then
    (lowPopBlocks minPopPerBlock blocks).foldl
      (fun f low =>
        Function.update
          (Function.update f (nearest low) (f (nearest low) + low.population))
          low.geoid 0)
      (initAdjusted blocks)
  else
    initAdjusted blocks

/-! ### FlowSynthesizer: gravity model (generateCommuteFlows, lines 469-547)
and its tuning parameters (lines 27-47) -/

/-- The TUNING_PARAMS object at lines 27-47. -/
structure TuningParams where
  jobRatio : ℝ
  clusterThresholdMeters : ℚ
  gravityExponent : ℝ
  gravityMinDistance : ℝ
  localJobBonus : ℝ
  minFlowSize : ℤ
  minJobsPerBlock : ℤ
  minPopPerBlock : ℤ

/-- The concrete values of TUNING_PARAMS in the source. -/
noncomputable def TUNING_PARAMS : TuningParams :=
  ⟨0.95, 300, 0.5, 2500, 0.001, 5, 5, 10⟩

/-- Abstract model of turf.distance in meters for the gravity component,
real-valued since it feeds real arithmetic. -/
def DistR : Type := (ℚ × ℚ) → (ℚ × ℚ) → ℝ

/-- JS Math.round over the reals: Math.round x = floor (x + 1/2). -/
noncomputable def jsRoundR (x : ℝ) : ℤ := ⌊x + 1 / 2⌋

/-- Lines 505-510: the cross-cluster gravity attractiveness
destJobs / Math.pow(Math.max(distance, gravityMinDistance),
gravityExponent), with Math.pow modelled as the real power. -/
noncomputable def crossAttractiveness
    (gravityMinDistance gravityExponent jobs distance : ℝ) : ℝ :=
  jobs / (max distance gravityMinDistance) ^ gravityExponent

/-- One entry of the potentialFlows array (lines 485-517). -/
structure Candidate where
  dest : String
  jobs : ℤ
  distance : ℝ
  attractiveness : ℝ

/-- Lines 480-518: the potentialFlows array collected for one origin.  The
same-geoid destination contributes jobs * localJobBonus at distance 0 when
it has jobs; other destinations are skipped below minJobsPerBlock and
otherwise contribute the gravity attractiveness at their centroid
distance. -/
noncomputable def potentialFlowsFor (P : TuningParams) (dist : DistR)
    (emp : Emp) (blocks : List Block) (origin : Block) : List Candidate :=
  blocks.filterMap fun dst =>
    if origin.geoid = dst.geoid then
      if 0 < emp dst.geoid then
        some ⟨dst.geoid, emp dst.geoid, 0, (emp dst.geoid : ℝ) * P.localJobBonus⟩
      else none
    else
      if emp dst.geoid < P.minJobsPerBlock then none
      else
        some ⟨dst.geoid, emp dst.geoid, dist origin.centroid dst.centroid,
          crossAttractiveness P.gravityMinDistance P.gravityExponent
            (emp dst.geoid : ℝ) (dist origin.centroid dst.centroid)⟩

/-- Line 521: totalAttractiveness = potentialFlows.reduce(sum of
attractiveness). -/
noncomputable def totalAttractiveness (P : TuningParams) (dist : DistR)
    (emp : Emp) (blocks : List Block) (origin : Block) : ℝ :=
  ((potentialFlowsFor P dist emp blocks origin).map
    Candidate.attractiveness).sum

/-- Lines 526-546 for one candidate of one origin: the allocation flowSize
= Math.round(originPop * (attractiveness / totalAttractiveness)) is pushed
through the splitting code, advancing the flowId counter by one per pushed
record. -/
noncomputable def emitCandidate (P : TuningParams) (originGeoid : String)
    (originPop : ℤ) (total : ℝ) (s : ℕ × List FlowRec) (f : Candidate) :
    ℕ × List FlowRec :=
  let recs := emitFlow P.minFlowSize s.1 originGeoid f.dest
    (jsRoundR f.distance) (jsRoundR (f.distance * 0.12))
    (jsRoundR ((originPop : ℝ) * (f.attractiveness / total)))
  (s.1 + recs.length, s.2 ++ recs)

/-- Lines 473-547, one iteration of the outer blocks.forEach over origins.
The state is the flowId counter paired with the flows accumulated so far.
An origin with adjusted population below minPopPerBlock is skipped (line
475), as is an origin with zero total attractiveness (line 523); otherwise
every candidate allocation is emitted through the splitting code. -/
noncomputable def processOrigin (P : TuningParams) (dist : DistR) (emp : Emp)
    (blocks : List Block) (adjusted : String → ℤ) (st : ℕ × List FlowRec)
    (origin : Block) : ℕ × List FlowRec :=
  if adjusted origin.geoid < P.minPopPerBlock then st
  else if totalAttractiveness P dist emp blocks origin = 0 then st
  else
    (potentialFlowsFor P dist emp blocks origin).foldl
      (emitCandidate P origin.geoid (adjusted origin.geoid)
        (totalAttractiveness P dist emp blocks origin))
      st

/-- The outer origin loop of generateCommuteFlows (lines 469-547): fold
processOrigin over the origin list, starting from a flowId counter and the
flows collected so far.  In the source the origin list and the candidate
list are the same blocks array. -/
noncomputable def generateFlowsAux (P : TuningParams) (dist : DistR)
    (emp : Emp) (blocks : List Block) (adjusted : String → ℤ)
    (origins : List Block) (st : ℕ × List FlowRec) : ℕ × List FlowRec :=
  origins.foldl (processOrigin P dist emp blocks adjusted) st

/-- Lines 505-527 in isolation, for the concrete gravity scenario: given an
origin population and a list of (jobs, distance) destination candidates,
the allocation Math.round(originPop * (attractiveness /
totalAttractiveness)) computed for each candidate. -/
noncomputable def gravityAllocation (gravityMinDistance gravityExponent : ℝ)
    (originPop : ℝ) (cands : List (ℝ × ℝ)) : List ℤ :=
  let attrs := cands.map fun c =>
    crossAttractiveness gravityMinDistance gravityExponent c.1 c.2
  let total := attrs.sum
  attrs.map fun a => jsRoundR (originPop * (a / total))

/-! ### Helper lemmas: concrete values of the splitting arithmetic -/

theorem splitsOf_850 : splitsOf 850 = 3 := by
  rw [splitsOf, Int.ceil_eq_iff]
  norm_num

theorem sizePerSplit_850 : sizePerSplit 850 = 283 := by
  rw [sizePerSplit, splitsOf_850, jsRound, Int.floor_eq_iff]
  norm_num

theorem splitsOf_1000 : splitsOf 1000 = 3 := by
  rw [splitsOf, Int.ceil_eq_iff]
  norm_num

theorem sizePerSplit_1000 : sizePerSplit 1000 = 333 := by
  rw [sizePerSplit, splitsOf_1000, jsRound, Int.floor_eq_iff]
  norm_num

/-- A record is in the emitted list only when the allocation passed the
minFlowSize gate and was positive, and then its size is the split size. -/
theorem size_of_mem_emitFlow {m f : ℤ} {fid : ℕ} {a b : String} {dd ds : ℤ}
    {r : FlowRec} (hr : r ∈ emitFlow m fid a b dd ds f) :
    m ≤ f ∧ 0 < f ∧ r.size = sizePerSplit f := by
  unfold emitFlow at hr
  by_cases hm : m ≤ f
  · rw [if_pos hm] at hr
    obtain ⟨i, hi, rfl⟩ := List.mem_map.1 hr
    refine ⟨hm, ?_, rfl⟩
    have htn : 0 < (splitsOf f).toNat := Nat.pos_of_ne_zero fun h0 => by
      rw [h0] at hi; simp at hi
    have hs : 0 < splitsOf f := by omega
    rw [splitsOf, Int.lt_ceil] at hs
    have hf : (0 : ℚ) < (f : ℚ) := by simpa using hs
    exact_mod_cast hf
  · rw [if_neg hm] at hr
    exact absurd hr (List.not_mem_nil r)

/-- An allocation of at most 400 is emitted unsplit: one record carrying the
allocation itself. -/
theorem sizePerSplit_of_le_400 {f : ℤ} (h1 : 0 < f) (h2 : f ≤ 400) :
    sizePerSplit f = f := by
  have hf : (0:ℚ) < (f : ℚ) := by exact_mod_cast h1
  have hsp : splitsOf f = 1 := by
    rw [splitsOf, Int.ceil_eq_iff]
    push_cast
    constructor
    · have : (0:ℚ) < (f : ℚ) / 400 := div_pos hf (by norm_num)
      linarith
    · rw [div_le_one (by norm_num : (0:ℚ) < 400)]
      exact_mod_cast h2
  rw [sizePerSplit, hsp, jsRound]
  rw [show ((1:ℤ):ℚ) = 1 from Int.cast_one, div_one, Int.floor_eq_iff]
  constructor <;> linarith

/-- Every split record of an allocation above the cap has size at least
201. -/
theorem sizePerSplit_of_gt_400 {f : ℤ} (h : 400 < f) :
    201 ≤ sizePerSplit f := by
  have hs2 : 2 ≤ splitsOf f := by
    have h1 : (1:ℤ) < ⌈(f:ℚ)/400⌉ := by
      rw [Int.lt_ceil, lt_div_iff (by norm_num : (0:ℚ) < 400)]
      have h400 : (400:ℚ) < (f:ℚ) := by exact_mod_cast h
      push_cast
      linarith
    rw [splitsOf]; omega
  have hceil : ((splitsOf f : ℤ) : ℚ) < (f:ℚ)/400 + 1 := by
    rw [splitsOf]
    exact Int.ceil_lt_add_one _
  have hint : 400 * splitsOf f - 399 ≤ f := by
    have h400 : (400:ℚ) * ((splitsOf f : ℤ) : ℚ) - 400 < (f:ℚ) := by
      have := (sub_lt_iff_lt_add).mpr hceil
      nlinarith
    have : (400 * splitsOf f - 400 : ℤ) < f := by exact_mod_cast h400
    omega
  have hspos : (0:ℚ) < ((splitsOf f : ℤ) : ℚ) := by
    have : (0:ℤ) < splitsOf f := by omega
    exact_mod_cast this
  rw [sizePerSplit, jsRound, Int.le_floor]
  have hdiv : (401/2 : ℚ) ≤ (f:ℚ) / ((splitsOf f : ℤ) : ℚ) := by
    rw [le_div_iff hspos]
    have hq : (400 * ((splitsOf f : ℤ):ℚ) - 399 : ℚ) ≤ (f:ℚ) := by
      exact_mod_cast hint
    have hs2q : (2:ℚ) ≤ ((splitsOf f : ℤ) : ℚ) := by exact_mod_cast hs2
    nlinarith
  push_cast
  linarith

/-- C2, amended part of the development: with the configured minimum at most
201 (the shipped configuration uses 5), every emitted record has size at
least minFlowSize. -/
theorem emitFlow_size_ge_minFlowSize (minFlowSize flowSize : ℤ)
    (flowId : ℕ) (resId jobId : String) (dDist dSecs : ℤ)
    (hcfg : minFlowSize ≤ 201) (halloc : minFlowSize ≤ flowSize) :
    ∀ r ∈ emitFlow minFlowSize flowId resId jobId dDist dSecs flowSize,
      minFlowSize ≤ r.size := by
  intro r hr
  obtain ⟨-, hpos, hsize⟩ := size_of_mem_emitFlow hr
  rw [hsize]
  rcases le_or_lt flowSize 400 with h4 | h4
  · rw [sizePerSplit_of_le_400 hpos h4]
    exact halloc
  · exact le_trans hcfg (sizePerSplit_of_gt_400 h4)

/-- Witness for emitFlow_size_ge_minFlowSize at the shipped minFlowSize 5
and the allocation 850. -/
theorem emitFlow_size_ge_minFlowSize_witness :
    (5:ℤ) ≤ 201 ∧ (5:ℤ) ≤ 850 ∧
    ∀ r ∈ emitFlow 5 0 "o" "d" 2500 300 850, (5:ℤ) ≤ r.size :=
  ⟨by norm_num, by norm_num,
    emitFlow_size_ge_minFlowSize 5 850 0 "o" "d" 2500 300
      (by norm_num) (by norm_num)⟩

/-- C2, the claim as frozen is false: with minFlowSize configured to 1000
the allocation 1000 passes the gate but is split into records of size 333,
below the minimum. -/
theorem emitFlow_minFlowSize_counterexample :
    ¬ ∀ r ∈ emitFlow 1000 0 "o" "d" 0 0 1000, (1000:ℤ) ≤ r.size := by
  intro h
  have hmem : (⟨0, "o", "d", sizePerSplit 1000, 0, 0⟩ : FlowRec)
      ∈ emitFlow 1000 0 "o" "d" 0 0 1000 := by
    unfold emitFlow
    rw [if_pos (by norm_num : (1000:ℤ) ≤ 1000)]
    refine List.mem_map.2 ⟨0, ?_, by simp⟩
    rw [splitsOf_1000]
    decide
  have := h _ hmem
  rw [sizePerSplit_1000] at this
  norm_num at this

/-- C3: above the split cap the emission produces exactly
ceil(flowSize/400) records, each of size round(flowSize/splits), with the
same residence, job, distance and travel time, and distinct sequential
ids. -/
theorem emitFlow_split_structure (minFlowSize flowSize : ℤ) (flowId : ℕ)
    (resId jobId : String) (dDist dSecs : ℤ)
    (hcap : 400 < flowSize) (hmin : minFlowSize ≤ flowSize) :
    (emitFlow minFlowSize flowId resId jobId dDist dSecs flowSize).length
        = (splitsOf flowSize).toNat ∧
    (emitFlow minFlowSize flowId resId jobId dDist dSecs flowSize).map
        FlowRec.size
        = List.replicate (splitsOf flowSize).toNat (sizePerSplit flowSize) ∧
    (emitFlow minFlowSize flowId resId jobId dDist dSecs flowSize).map
        FlowRec.id
        = (List.range (splitsOf flowSize).toNat).map (fun i => flowId + i) ∧
    ((emitFlow minFlowSize flowId resId jobId dDist dSecs flowSize).map
        FlowRec.id).Nodup ∧
    ∀ r ∈ emitFlow minFlowSize flowId resId jobId dDist dSecs flowSize,
      r.residenceId = resId ∧ r.jobId = jobId ∧
      r.drivingDistance = dDist ∧ r.drivingSeconds = dSecs := by
  have hpos : 0 < flowSize := by linarith
  unfold emitFlow
  rw [if_pos hmin]
  refine ⟨by simp, ?_, ?_, ?_, ?_⟩
  · rw [List.map_map]
    have hc : (FlowRec.size ∘ fun i =>
        (⟨flowId + i, resId, jobId, sizePerSplit flowSize, dDist, dSecs⟩
          : FlowRec)) = fun _ => sizePerSplit flowSize := rfl
    rw [hc, List.map_const', List.length_range]
  · rw [List.map_map]
    rfl
  · rw [List.map_map]
    have : (FlowRec.id ∘ fun i =>
        (⟨flowId + i, resId, jobId, sizePerSplit flowSize, dDist, dSecs⟩
          : FlowRec)) = fun i => flowId + i := rfl
    rw [this]
    exact (List.nodup_range _).map (add_right_injective flowId)
  · intro r hr
    obtain ⟨i, -, rfl⟩ := List.mem_map.1 hr
    exact ⟨rfl, rfl, rfl, rfl⟩

/-- Witness for emitFlow_split_structure at the concrete allocation 850:
three records of size 283 each. -/
theorem emitFlow_split_structure_witness :
    (400:ℤ) < 850 ∧ (5:ℤ) ≤ 850 ∧ splitsOf 850 = 3 ∧ sizePerSplit 850 = 283 ∧
    (emitFlow 5 0 "o" "d" 2500 300 850).length = 3 ∧
    (emitFlow 5 0 "o" "d" 2500 300 850).map FlowRec.size = [283, 283, 283] := by
  obtain ⟨hlen, hsizes, -, -, -⟩ :=
    emitFlow_split_structure 5 850 0 "o" "d" 2500 300
      (by norm_num) (by norm_num)
  refine ⟨by norm_num, by norm_num, splitsOf_850, sizePerSplit_850, ?_, ?_⟩
  · rw [hlen, splitsOf_850]
    rfl
  · rw [hsizes, splitsOf_850, sizePerSplit_850]
    rfl

/-- C9: splitting does not conserve the allocated total.  The allocation
850 passes the gate, is above the cap, and its three split records of size
283 sum to 849, not 850. -/
theorem flowSplit_not_conserving :
    (5:ℤ) ≤ 850 ∧ (400:ℤ) < 850 ∧ splitsOf 850 = 3 ∧ sizePerSplit 850 = 283 ∧
    ((emitFlow 5 0 "o" "d" 0 0 850).map FlowRec.size).sum = 849 ∧
    (849:ℤ) ≠ 850 := by
  have hl : emitFlow 5 0 "o" "d" 0 0 850
      = [⟨0, "o", "d", sizePerSplit 850, 0, 0⟩,
         ⟨1, "o", "d", sizePerSplit 850, 0, 0⟩,
         ⟨2, "o", "d", sizePerSplit 850, 0, 0⟩] := by
    unfold emitFlow
    rw [if_pos (by norm_num : (5:ℤ) ≤ 850), splitsOf_850]
    rfl
  refine ⟨by norm_num, by norm_num, splitsOf_850, sizePerSplit_850, ?_,
    by norm_num⟩
  rw [hl]
  simp [sizePerSplit_850]

/-! ### Theorems about the BlockIngestor -/

/-- C8, amended part of the development: the ingestor does not deduplicate
at all.  For every identifier, the number of Blocks carrying it equals the
number of raw records carrying it whose coordinates parse. -/
theorem ingest_counts_by_identifier (features : List RawFeature) (g : String) :
    ((processCensusBlocks features).filter fun b => b.geoid = g).length
      = (features.filter fun f =>
          f.INTPTLAT.isSome ∧ f.INTPTLON.isSome ∧ f.GEOID = g).length := by
  induction features with
  | nil => rfl
  | cons f rest ih =>
    simp only [processCensusBlocks, List.filterMap_cons] at *
    cases hlat : f.INTPTLAT with
    | none => simp [parseBlock, hlat, List.filter_cons, ih]
    | some lat =>
      cases hlon : f.INTPTLON with
      | none => simp [parseBlock, hlat, hlon, List.filter_cons, ih]
      | some lon =>
        by_cases hg : f.GEOID = g
        · simp [parseBlock, hlat, hlon, List.filter_cons, hg, ih]
        · simp [parseBlock, hlat, hlon, List.filter_cons, hg, ih]

/-- Two raw records sharing an identifier, with different populations. -/
def dupFeatures : List RawFeature :=
  [⟨"g1", some 3, some 34, some 118⟩, ⟨"g1", some 4, some 34, some 118⟩]

/-- C8, the claim as frozen is false: when the identifier g1 occurs twice,
the output holds two Blocks for it, not one, and both occurrences keep
their own population (the earlier record is not replaced by the later
one). -/
theorem ingest_dup_identifier_counterexample :
    ((processCensusBlocks dupFeatures).filter fun b => b.geoid = "g1").length
        = 2 ∧
    (2:ℕ) ≠ 1 ∧
    (processCensusBlocks dupFeatures).map Block.population = [3, 4] := by
  refine ⟨rfl, by norm_num, rfl⟩

/-! ### Theorems about the BlockAggregator -/

/-- The concatenated member lists of a cluster list: which blocks were
assigned, with multiplicity. -/
def clusterBlocks (cs : List Cluster) : List Block :=
  (cs.map Cluster.subBlocks).join

theorem clusterBlocks_cons (c : Cluster) (cs : List Cluster) :
    clusterBlocks (c :: cs) = c.subBlocks ++ clusterBlocks cs := rfl

theorem insertByPop_perm (b : Block) (l : List Block) :
    (insertByPop b l).Perm (b :: l) := by
  induction l with
  | nil => exact List.Perm.refl _
  | cons c rest ih =>
    rw [insertByPop]
    split
    · exact List.Perm.refl _
    · exact (ih.cons c).trans (List.Perm.swap b c rest)

theorem sortBlocks_perm (l : List Block) : (sortBlocks l).Perm l := by
  induction l with
  | nil => exact List.Perm.refl _
  | cons b rest ih =>
    exact (insertByPop_perm b (sortBlocks rest)).trans (ih.cons b)

theorem clusterBlocks_insertBlock (dist : Dist) (threshold : ℚ) (emp : Emp)
    (cs : List Cluster) (b : Block) :
    (clusterBlocks (insertBlock dist threshold emp cs b)).Perm
      (b :: clusterBlocks cs) := by
  induction cs with
  | nil => exact List.Perm.refl _
  | cons c rest ih =>
    rw [insertBlock]
    split
    · rw [clusterBlocks_cons, clusterBlocks_cons]
      show ((c.subBlocks ++ [b]) ++ clusterBlocks rest).Perm _
      rw [List.append_assoc]
      exact List.perm_middle
    · rw [clusterBlocks_cons, clusterBlocks_cons]
      exact ((ih.append_left c.subBlocks)).trans List.perm_middle

theorem clusterBlocks_foldl (dist : Dist) (threshold : ℚ) (emp : Emp)
    (bs : List Block) :
    ∀ cs : List Cluster,
      (clusterBlocks (bs.foldl (insertBlock dist threshold emp) cs)).Perm
        (bs ++ clusterBlocks cs) := by
  induction bs with
  | nil => intro cs; exact List.Perm.refl _
  | cons b bs ih =>
    intro cs
    rw [List.foldl_cons]
    refine (ih _).trans ?_
    refine ((clusterBlocks_insertBlock dist threshold emp cs b).append_left
      bs).trans ?_
    exact List.perm_middle

theorem popSum_insertBlock (dist : Dist) (threshold : ℚ) (emp : Emp)
    (cs : List Cluster) (b : Block) :
    ((insertBlock dist threshold emp cs b).map Cluster.population).sum
      = (cs.map Cluster.population).sum + b.population := by
  induction cs with
  | nil => simp [insertBlock, newCluster]
  | cons c rest ih =>
    rw [insertBlock]
    split
    · simp [mergeInto]
      ring
    · simp [ih]
      ring

theorem jobsSum_insertBlock (dist : Dist) (threshold : ℚ) (emp : Emp)
    (cs : List Cluster) (b : Block) :
    ((insertBlock dist threshold emp cs b).map Cluster.jobs).sum
      = (cs.map Cluster.jobs).sum + emp b.geoid := by
  induction cs with
  | nil => simp [insertBlock, newCluster]
  | cons c rest ih =>
    rw [insertBlock]
    split
    · simp [mergeInto]
      ring
    · simp [ih]
      ring

theorem popSum_foldl (dist : Dist) (threshold : ℚ) (emp : Emp)
    (bs : List Block) :
    ∀ cs : List Cluster,
      ((bs.foldl (insertBlock dist threshold emp) cs).map
          Cluster.population).sum
        = (cs.map Cluster.population).sum + (bs.map Block.population).sum := by
  induction bs with
  | nil => intro cs; simp
  | cons b bs ih =>
    intro cs
    rw [List.foldl_cons, ih, popSum_insertBlock]
    simp
    ring

theorem jobsSum_foldl (dist : Dist) (threshold : ℚ) (emp : Emp)
    (bs : List Block) :
    ∀ cs : List Cluster,
      ((bs.foldl (insertBlock dist threshold emp) cs).map Cluster.jobs).sum
        = (cs.map Cluster.jobs).sum + (bs.map fun b => emp b.geoid).sum := by
  induction bs with
  | nil => intro cs; simp
  | cons b bs ih =>
    intro cs
    rw [List.foldl_cons, ih, jobsSum_insertBlock]
    simp
    ring

/-- C1: for every distance function, threshold, employment map and input
list, aggregation assigns each block to exactly one cluster (the
concatenation of the member lists is a permutation of the input), and both
the population totals and the job totals are conserved. -/
theorem aggregateBlocks_conservation (dist : Dist) (blocks : List Block)
    (emp : Emp) (threshold : ℚ) :
    (clusterBlocks (aggregateBlocks dist blocks emp threshold)).Perm blocks ∧
    ((aggregateBlocks dist blocks emp threshold).map Cluster.population).sum
      = (blocks.map Block.population).sum ∧
    ((aggregateBlocks dist blocks emp threshold).map Cluster.jobs).sum
      = (blocks.map fun b => emp b.geoid).sum := by
  refine ⟨?_, ?_, ?_⟩
  · have h1 := clusterBlocks_foldl dist threshold emp (sortBlocks blocks) []
    rw [aggregateBlocks]
    have h2 : (clusterBlocks
        ((sortBlocks blocks).foldl (insertBlock dist threshold emp) [])).Perm
        (sortBlocks blocks) := by simpa [clusterBlocks] using h1
    exact h2.trans (sortBlocks_perm blocks)
  · rw [aggregateBlocks, popSum_foldl]
    have := ((sortBlocks_perm blocks).map Block.population).sum_eq
    simpa [clusterBlocks] using this
  · rw [aggregateBlocks, jobsSum_foldl]
    have := ((sortBlocks_perm blocks).map fun b => emp b.geoid).sum_eq
    simpa [clusterBlocks] using this

theorem insertBlock_zero_threshold (dist : Dist) (emp : Emp)
    (h : ∀ p q, 0 ≤ dist p q) (cs : List Cluster) (b : Block) :
    insertBlock dist 0 emp cs b = cs ++ [newCluster emp b] := by
  induction cs with
  | nil => rfl
  | cons c rest ih =>
    rw [insertBlock, if_neg (not_lt.2 (h b.centroid c.centroid)), ih]
    rfl

theorem foldl_zero_threshold (dist : Dist) (emp : Emp)
    (h : ∀ p q, 0 ≤ dist p q) (bs : List Block) :
    ∀ cs : List Cluster,
      bs.foldl (insertBlock dist 0 emp) cs = cs ++ bs.map (newCluster emp) := by
  induction bs with
  | nil => intro cs; simp
  | cons b bs ih =>
    intro cs
    rw [List.foldl_cons, ih, insertBlock_zero_threshold dist emp h,
      List.append_assoc]
    rfl

/-- C7: with a zero threshold and a nonnegative distance function, no
merging happens: one cluster per input block, each holding exactly its one
seed block, even when blocks share a centroid. -/
theorem aggregateBlocks_zero_threshold (dist : Dist) (blocks : List Block)
    (emp : Emp) (h : ∀ p q, 0 ≤ dist p q) :
    (aggregateBlocks dist blocks emp 0).length = blocks.length ∧
    ∀ c ∈ aggregateBlocks dist blocks emp 0, c.subBlocks.length = 1 := by
  have hagg : aggregateBlocks dist blocks emp 0
      = (sortBlocks blocks).map (newCluster emp) := by
    rw [aggregateBlocks, foldl_zero_threshold dist emp h]
    rfl
  constructor
  · rw [hagg, List.length_map, (sortBlocks_perm blocks).length_eq]
  · rw [hagg]
    intro c hc
    obtain ⟨b, -, rfl⟩ := List.mem_map.1 hc
    rfl

/-- Two blocks with distinct identifiers but the same centroid. -/
def demoBlocks : List Block := [⟨"a", (0, 0), 5⟩, ⟨"b", (0, 0), 7⟩]

/-- Witness for aggregateBlocks_zero_threshold: two same-centroid blocks
under the zero distance function still give two singleton clusters. -/
theorem aggregateBlocks_zero_threshold_witness :
    (∀ p q : ℚ × ℚ, (0:ℚ) ≤ (fun _ _ => (0:ℚ)) p q) ∧
    demoBlocks.length = 2 ∧
    ((aggregateBlocks (fun _ _ => (0:ℚ)) demoBlocks (fun _ => 0) 0).length
        = demoBlocks.length ∧
      ∀ c ∈ aggregateBlocks (fun _ _ => (0:ℚ)) demoBlocks (fun _ => 0) 0,
        c.subBlocks.length = 1) :=
  ⟨fun _ _ => le_refl 0, rfl,
    aggregateBlocks_zero_threshold (fun _ _ => (0:ℚ)) demoBlocks (fun _ => 0)
      (fun _ _ => le_refl 0)⟩

/-! ### Theorems about the gravity attractiveness -/

/-- C4, amended: for positive jobs and exponent, the attractiveness is
strictly decreasing in distance beyond the gravityMinDistance floor. -/
theorem crossAttractiveness_strict_anti (gravityMinDistance gravityExponent
    jobs d1 d2 : ℝ) (hjobs : 0 < jobs) (he : 0 < gravityExponent)
    (hd1 : 0 < d1) (hfloor : gravityMinDistance ≤ d1) (hlt : d1 < d2) :
    crossAttractiveness gravityMinDistance gravityExponent jobs d2
      < crossAttractiveness gravityMinDistance gravityExponent jobs d1 := by
  unfold crossAttractiveness
  rw [max_eq_left hfloor, max_eq_left (hfloor.trans hlt.le)]
  exact div_lt_div_of_pos_left hjobs (Real.rpow_pos_of_pos hd1 _)
    (Real.rpow_lt_rpow hd1.le hlt he)

/-- Witness for crossAttractiveness_strict_anti at floor 1, exponent 1,
jobs 1, distances 1 and 2. -/
theorem crossAttractiveness_strict_anti_witness :
    (0:ℝ) < 1 ∧ (0:ℝ) < 1 ∧ (1:ℝ) ≤ 1 ∧ (1:ℝ) < 2 ∧
    crossAttractiveness 1 1 1 2 < crossAttractiveness 1 1 1 1 :=
  ⟨by norm_num, by norm_num, le_refl 1, by norm_num,
    crossAttractiveness_strict_anti 1 1 1 1 2 (by norm_num) (by norm_num)
      (by norm_num) (le_refl 1) (by norm_num)⟩

/-- C4, the claim as frozen is false: below the floor the max clamps both
distances, so at jobs 100, exponent 1/2, floor 2500, the distances 1000
and 2000 give equal attractiveness, not strictly decreasing. -/
theorem crossAttractiveness_not_strict_below_floor :
    (0:ℝ) < 100 ∧ (0:ℝ) < 1/2 ∧ (1000:ℝ) < 2000 ∧
    ¬ crossAttractiveness 2500 (1/2) 100 2000
        < crossAttractiveness 2500 (1/2) 100 1000 := by
  refine ⟨by norm_num, by norm_num, by norm_num, ?_⟩
  have heq : crossAttractiveness 2500 (1/2) 100 2000
      = crossAttractiveness 2500 (1/2) 100 1000 := by
    unfold crossAttractiveness
    rw [max_eq_right (by norm_num : (2000:ℝ) ≤ 2500),
      max_eq_right (by norm_num : (1000:ℝ) ≤ 2500)]
  rw [heq]
  exact lt_irrefl _

/-! ### Theorems about skipping zero-attractiveness origins -/

/-- C6: an origin whose total attractiveness is 0 contributes no flow
records and leaves the flowId counter untouched, and the fold over the
remaining origins proceeds exactly as if the origin were not an origin at
all (it stays in the candidate list).  The model is a total function, so
the skip is silent rather than an error. -/
theorem zero_attractiveness_skips_origin (P : TuningParams) (dist : DistR)
    (emp : Emp) (adjusted : String → ℤ) (l1 l2 : List Block) (o : Block)
    (st : ℕ × List FlowRec)
    (h : totalAttractiveness P dist emp (l1 ++ o :: l2) o = 0) :
    generateFlowsAux P dist emp (l1 ++ o :: l2) adjusted (l1 ++ o :: l2) st
      = generateFlowsAux P dist emp (l1 ++ o :: l2) adjusted (l1 ++ l2) st := by
  have hid : ∀ s, processOrigin P dist emp (l1 ++ o :: l2) adjusted s o = s := by
    intro s
    by_cases h1 : adjusted o.geoid < P.minPopPerBlock
    · rw [processOrigin, if_pos h1]
    · rw [processOrigin, if_neg h1, if_pos h]
  rw [generateFlowsAux, generateFlowsAux, List.foldl_append, List.foldl_append,
    List.foldl_cons, hid]

/-- A single isolated block with no jobs anywhere and adjusted population
50. -/
def isolatedBlock : Block := ⟨"a", (0, 0), 50⟩

/-- Witness for zero_attractiveness_skips_origin: one origin, no jobs, so
its total attractiveness is 0 and the fold skips it. -/
theorem zero_attractiveness_skips_origin_witness :
    totalAttractiveness TUNING_PARAMS (fun _ _ => (0:ℝ)) (fun _ => 0)
        [isolatedBlock] isolatedBlock = 0 ∧
    generateFlowsAux TUNING_PARAMS (fun _ _ => (0:ℝ)) (fun _ => 0)
        [isolatedBlock] (fun _ => 50) [isolatedBlock] (0, [])
      = generateFlowsAux TUNING_PARAMS (fun _ _ => (0:ℝ)) (fun _ => 0)
        [isolatedBlock] (fun _ => 50) [] (0, []) := by
  have h0 : totalAttractiveness TUNING_PARAMS (fun _ _ => (0:ℝ)) (fun _ => 0)
      [isolatedBlock] isolatedBlock = 0 := by
    simp [totalAttractiveness, potentialFlowsFor]
  exact ⟨h0, zero_attractiveness_skips_origin TUNING_PARAMS
    (fun _ _ => (0:ℝ)) (fun _ => 0) (fun _ => 50) [] [] isolatedBlock
    (0, []) h0⟩

/-! ### The concrete gravity scenario -/

/-- Evaluation of the concrete scenario: origin population 1000,
destination A with 100 jobs at 1000 m, destination B with 400 jobs at
4000 m, floor 2500, exponent 1/2.  Distance A is clamped to 2500 and gives
attractiveness 2, distance B stays 4000 and gives 400 / sqrt 4000, so the
allocations round to 240 and 760. -/
theorem gravityAllocation_concrete :
    gravityAllocation 2500 (1/2) 1000 [(100, 1000), (400, 4000)]
      = [240, 760] := by
  have h50 : ((2500:ℝ) ^ ((1:ℝ)/2)) = 50 := by
    rw [← Real.sqrt_eq_rpow, show (2500:ℝ) = 50 ^ 2 by norm_num]
    exact Real.sqrt_sq (by norm_num)
  set s := Real.sqrt 4000 with hs_def
  have hsq : ((4000:ℝ) ^ ((1:ℝ)/2)) = s := (Real.sqrt_eq_rpow 4000).symm
  have hs0 : 0 ≤ s := Real.sqrt_nonneg 4000
  have hss : s ^ 2 = 4000 := Real.sq_sqrt (by norm_num)
  have hsl : (63.24:ℝ) < s := by nlinarith
  have hsu : s < 63.25 := by nlinarith
  have hs_pos : (0:ℝ) < s := lt_trans (by norm_num) hsl
  have hD : (0:ℝ) < 2 * s + 400 := by linarith
  unfold gravityAllocation crossAttractiveness jsRoundR
  simp only [List.map_cons, List.map_nil, List.sum_cons, List.sum_nil]
  rw [max_eq_right (by norm_num : (1000:ℝ) ≤ 2500),
    max_eq_left (by norm_num : (2500:ℝ) ≤ 4000)]
  rw [h50, hsq]
  have hT : (100:ℝ)/50 + (400/s + 0) = (2*s + 400)/s := by
    field_simp
    ring
  rw [hT]
  have e1 : (1000:ℝ) * ((100/50) / ((2*s+400)/s)) = 2000*s/(2*s+400) := by
    field_simp
    ring
  have e2 : (1000:ℝ) * ((400/s) / ((2*s+400)/s)) = 400000/(2*s+400) := by
    field_simp
    norm_num
  rw [e1, e2]
  have g1 : ⌊2000*s/(2*s+400) + 1/2⌋ = (240:ℤ) := by
    rw [Int.floor_eq_iff]
    push_cast
    constructor
    · have hge : (479/2 : ℝ) ≤ 2000*s/(2*s+400) := by
        rw [le_div_iff hD]
        nlinarith
      linarith
    · have hlt : 2000*s/(2*s+400) < 481/2 := by
        rw [div_lt_iff hD]
        nlinarith
      linarith
  have g2 : ⌊400000/(2*s+400) + 1/2⌋ = (760:ℤ) := by
    rw [Int.floor_eq_iff]
    push_cast
    constructor
    · have hge : (1519/2 : ℝ) ≤ 400000/(2*s+400) := by
        rw [le_div_iff hD]
        nlinarith
      linarith
    · have hlt : 400000/(2*s+400) < 1521/2 := by
        rw [div_lt_iff hD]
        nlinarith
      linarith
  rw [g1, g2]

/-- C5, amended: in the concrete scenario the 1000 m distance is clamped
to the 2500 floor but the 4000 m distance is not (the floor is a minimum,
not a clamp of both), so B gets attractiveness 400 / 4000 ^ (1/2), about
6.32, and the allocations are 240 and 760 rather than 200 and 800. -/
theorem gravityScenario_amended :
    crossAttractiveness 2500 (1/2) 100 1000 = 100 / (2500:ℝ) ^ ((1:ℝ)/2) ∧
    crossAttractiveness 2500 (1/2) 400 4000 = 400 / (4000:ℝ) ^ ((1:ℝ)/2) ∧
    gravityAllocation 2500 (1/2) 1000 [(100, 1000), (400, 4000)]
      = [240, 760] := by
  refine ⟨?_, ?_, gravityAllocation_concrete⟩
  · unfold crossAttractiveness
    rw [max_eq_right (by norm_num : (1000:ℝ) ≤ 2500)]
  · unfold crossAttractiveness
    rw [max_eq_left (by norm_num : (2500:ℝ) ≤ 4000)]

/-- C5, the claim as frozen is false: the allocations in the concrete
scenario are not 200 and 800. -/
theorem gravityScenario_claim_false :
    gravityAllocation 2500 (1/2) 1000 [(100, 1000), (400, 4000)]
      ≠ [200, 800] := by
  rw [gravityAllocation_concrete]
  decide

/-! ### Theorems about the LowPopulationMerger -/

/-- The identifiers of a block list, in order. -/
def geoids (l : List Block) : List String := l.map Block.geoid

/-- The adjusted-population total over a cluster list: the keyed map read
at each cluster of the list. -/
def sumAdj (f : String → ℤ) (l : List Block) : ℤ :=
  (l.map fun b => f b.geoid).sum

theorem geoids_cons (b : Block) (l : List Block) :
    geoids (b :: l) = b.geoid :: geoids l := rfl

theorem sumAdj_cons (f : String → ℤ) (b : Block) (l : List Block) :
    sumAdj f (b :: l) = f b.geoid + sumAdj f l := by
  simp [sumAdj]

theorem sumAdj_update_not_mem (l : List Block) (f : String → ℤ)
    (k : String) (v : ℤ) (hk : k ∉ geoids l) :
    sumAdj (Function.update f k v) l = sumAdj f l := by
  induction l with
  | nil => rfl
  | cons b rest ih =>
    rw [geoids_cons, List.mem_cons] at hk
    push_neg at hk
    simp only [sumAdj, List.map_cons, List.sum_cons] at *
    rw [Function.update_noteq (Ne.symm hk.1), ih hk.2]

theorem sumAdj_update_mem (l : List Block) (f : String → ℤ)
    (k : String) (v : ℤ) (hnd : (geoids l).Nodup) (hk : k ∈ geoids l) :
    sumAdj (Function.update f k v) l = sumAdj f l - f k + v := by
  induction l with
  | nil => exact absurd hk (List.not_mem_nil k)
  | cons b rest ih =>
    rw [geoids_cons, List.nodup_cons] at hnd
    rw [geoids_cons, List.mem_cons] at hk
    rcases hk with hb | hrest
    · subst hb
      rw [sumAdj_cons, sumAdj_cons, Function.update_same,
        sumAdj_update_not_mem rest f b.geoid v hnd.1]
      ring
    · have hbk : b.geoid ≠ k := fun h => hnd.1 (h ▸ hrest)
      rw [sumAdj_cons, sumAdj_cons, Function.update_noteq hbk, ih hnd.2 hrest]
      ring

theorem foldl_update_not_mem (l : List Block) (f : String → ℤ)
    (k : String) (hk : k ∉ geoids l) :
    (l.foldl (fun g b => Function.update g b.geoid b.population) f) k
      = f k := by
  induction l generalizing f with
  | nil => rfl
  | cons b rest ih =>
    rw [geoids_cons, List.mem_cons] at hk
    push_neg at hk
    rw [List.foldl_cons, ih _ hk.2, Function.update_noteq hk.1]

theorem initAdjusted_eval_aux (l : List Block) :
    ∀ f : String → ℤ, (geoids l).Nodup →
      ∀ b ∈ l,
        (l.foldl (fun g b => Function.update g b.geoid b.population) f)
          b.geoid = b.population := by
  induction l with
  | nil => intro f _ b hb; exact absurd hb (List.not_mem_nil b)
  | cons c rest ih =>
    intro f hnd b hb
    rw [geoids_cons, List.nodup_cons] at hnd
    rcases List.mem_cons.1 hb with rfl | hbr
    · rw [List.foldl_cons, foldl_update_not_mem rest _ _ hnd.1,
        Function.update_same]
    · rw [List.foldl_cons]
      exact ih _ hnd.2 b hbr

theorem initAdjusted_eval (blocks : List Block)
    (hnd : (geoids blocks).Nodup) :
    ∀ b ∈ blocks, initAdjusted blocks b.geoid = b.population :=
  initAdjusted_eval_aux blocks _ hnd

theorem sumAdj_initAdjusted (blocks : List Block)
    (hnd : (geoids blocks).Nodup) :
    sumAdj (initAdjusted blocks) blocks
      = (blocks.map Block.population).sum := by
  unfold sumAdj
  exact congrArg List.sum
    (List.map_congr_left fun b hb => initAdjusted_eval blocks hnd b hb)

theorem mergeFold_sumAdj (nearest : Block → String) (blocks : List Block)
    (hnd : (geoids blocks).Nodup) :
    ∀ (lows : List Block) (f : String → ℤ),
      (geoids lows).Nodup →
      (∀ low ∈ lows, low.geoid ∈ geoids blocks) →
      (∀ low ∈ lows, nearest low ∈ geoids blocks) →
      (∀ low low₂, low ∈ lows → low₂ ∈ lows → nearest low ≠ low₂.geoid) →
      (∀ low ∈ lows, f low.geoid = low.population) →
      sumAdj (lows.foldl
        (fun g low =>
          Function.update
            (Function.update g (nearest low) (g (nearest low) + low.population))
            low.geoid 0) f) blocks
        = sumAdj f blocks := by
  intro lows
  induction lows with
  | nil => intro f _ _ _ _ _; rfl
  | cons L rest ih =>
    intro f hndl hmem hnear hdisj hf
    rw [geoids_cons, List.nodup_cons] at hndl
    have hLself : L ∈ L :: rest := List.mem_cons_self L rest
    have hNmem : nearest L ∈ geoids blocks := hnear L hLself
    have hLmem : L.geoid ∈ geoids blocks := hmem L hLself
    have hNneL : nearest L ≠ L.geoid := hdisj L L hLself hLself
    have hval : (Function.update f (nearest L)
        (f (nearest L) + L.population)) L.geoid = L.population := by
      rw [Function.update_noteq (Ne.symm hNneL)]
      exact hf L hLself
    rw [List.foldl_cons]
    rw [ih _ hndl.2
      (fun low h => hmem low (List.mem_cons_of_mem L h))
      (fun low h => hnear low (List.mem_cons_of_mem L h))
      (fun low low₂ h h₂ => hdisj low low₂
        (List.mem_cons_of_mem L h) (List.mem_cons_of_mem L h₂))
      ?hf2]
    case hf2 =>
      intro low₂ h₂
      have hne1 : low₂.geoid ≠ L.geoid := fun h =>
        hndl.1 (h ▸ List.mem_map_of_mem Block.geoid h₂)
      have hne2 : low₂.geoid ≠ nearest L :=
        Ne.symm (hdisj L low₂ hLself (List.mem_cons_of_mem L h₂))
      rw [Function.update_noteq hne1, Function.update_noteq hne2]
      exact hf low₂ (List.mem_cons_of_mem L h₂)
    rw [sumAdj_update_mem blocks _ L.geoid 0 hnd hLmem, hval,
      sumAdj_update_mem blocks f (nearest L) _ hnd hNmem]
    ring

/-- C10, amended: for cluster lists whose identifiers are pairwise
distinct, and a nearest-normal choice that picks the identifier of some
normal cluster whenever normal clusters exist, the merge conserves the
adjusted-population total, whether or not any normal clusters exist. -/
theorem mergeLowPop_conserves (minPop : ℤ) (nearest : Block → String)
    (blocks : List Block) (hnd : (geoids blocks).Nodup)
    (hnear : (normalBlocks minPop blocks).length > 0 →
      ∀ low ∈ lowPopBlocks minPop blocks,
        nearest low ∈ geoids (normalBlocks minPop blocks)) :
    sumAdj (mergeLowPop minPop nearest blocks) blocks
      = (blocks.map Block.population).sum := by
  by_cases hlen : (normalBlocks minPop blocks).length > 0
  · rw [mergeLowPop, if_pos hlen]
    have hsubl : (geoids (lowPopBlocks minPop blocks)).Sublist (geoids blocks) :=
      (List.filter_sublist blocks).map Block.geoid
    have hsubn : (geoids (normalBlocks minPop blocks)).Sublist (geoids blocks) :=
      (List.filter_sublist blocks).map Block.geoid
    have hinj := List.inj_on_of_nodup_map (f := Block.geoid) (l := blocks) hnd
    rw [mergeFold_sumAdj nearest blocks hnd (lowPopBlocks minPop blocks)
      (initAdjusted blocks)
      (hsubl.nodup hnd)
      (fun low h => List.mem_map_of_mem Block.geoid
        (List.mem_of_mem_filter h))
      (fun low h => hsubn.mem (hnear hlen low h))
      ?hdisj
      (fun low h => initAdjusted_eval blocks hnd low
        (List.mem_of_mem_filter h))]
    · exact sumAdj_initAdjusted blocks hnd
    case hdisj =>
      intro low low₂ h h₂ heq
      obtain ⟨nb, hnb, hnbg⟩ := List.mem_map.1 (hnear hlen low h)
      have hnb_blocks : nb ∈ blocks := List.mem_of_mem_filter hnb
      have hlow₂_blocks : low₂ ∈ blocks := List.mem_of_mem_filter h₂
      have : nb = low₂ := hinj hnb_blocks hlow₂_blocks (by rw [hnbg, heq])
      subst this
      have hnormal : minPop ≤ nb.population := by
        have := List.of_mem_filter hnb
        simpa using this
      have hlow : nb.population < minPop := by
        have := List.of_mem_filter h₂
        simp at this
        exact this.2
      linarith
  · rw [mergeLowPop, if_neg hlen]
    exact sumAdj_initAdjusted blocks hnd

/-- Two clusters sharing the identifier a, populations 3 and 4. -/
def dupClusters : List Block := [⟨"a", (0, 0), 3⟩, ⟨"a", (0, 0), 4⟩]

/-- C10, the claim as frozen is false: when two clusters share an
identifier, the keyed adjustedPopulation object collapses them (the later
initialization wins), and the adjusted total 8 differs from the stored
total 7 even though no merging happens. -/
theorem mergeLowPop_dup_counterexample :
    sumAdj (mergeLowPop 10 (fun _ => "a") dupClusters) dupClusters = 8 ∧
    (dupClusters.map Block.population).sum = 7 ∧ (8:ℤ) ≠ 7 := by
  refine ⟨by decide, by decide, by decide⟩

/-- Two clusters with distinct identifiers: a low one with population 3
and a normal one with population 20. -/
def demoClusters : List Block := [⟨"a", (0, 0), 3⟩, ⟨"b", (0, 0), 20⟩]

/-- Witness for mergeLowPop_conserves: the low cluster a folds into the
normal cluster b and the adjusted total stays 23. -/
theorem mergeLowPop_conserves_witness :
    (geoids demoClusters).Nodup ∧
    sumAdj (mergeLowPop 10 (fun _ => "b") demoClusters) demoClusters
      = (demoClusters.map Block.population).sum := by
  have hnd : (geoids demoClusters).Nodup := by decide
  have hnear : (normalBlocks 10 demoClusters).length > 0 →
      ∀ low ∈ lowPopBlocks 10 demoClusters,
        (fun _ => "b") low ∈ geoids (normalBlocks 10 demoClusters) := by
    decide
  exact ⟨hnd, mergeLowPop_conserves 10 (fun _ => "b") demoClusters hnd hnear⟩

end SubwayPatcher
